import Mathlib

/-!
Verification development for the pdf2xcel utility (src/app.py).

The program is a small synchronous pipeline: persist an uploaded PDF
buffer to a transient file, call the external extraction library
(camelot), clean the transient file up in a finally block, and, when at
least one table came back, write each table to a named sheet of an
in-memory spreadsheet.

Shallow embedding conventions:
  - A camelot table is a page number plus its grid of string cells
    (camelot dataframes hold raw text cells).
  - The outcome of the external call (raises / returns a table list) and
    of persisting the buffer (open fails / write fails / succeeds) are
    oracle parameters, since they are environment behaviour.
  - Side effects are recorded as an ordered event trace: file creation,
    file removal, and the four UI messages the code emits.
  - The Python function returns None on both the error path and the
    zero-table path, and an in-memory buffer otherwise; PyValue mirrors
    that return value exactly.
-/

-- A table as returned by the extraction library: page number and rows of
-- string cells (camelot table.df, all cells text).
structure Table where
  page : Nat
  rows : List (List String)
deriving DecidableEq

-- One sheet of the produced spreadsheet: its name and its cell grid.
structure Sheet where
  sname : String
  cells : List (List String)
deriving DecidableEq

-- The Python return value of extract_tables_to_excel: None, or the
-- in-memory spreadsheet buffer (identified by its sheets).
inductive PyValue where
  | none
  | buffer (sheets : List Sheet)
deriving DecidableEq

-- Outcome of the external camelot.read_pdf call.
inductive ExtCall where
  | raises (msg : String)
  | returns (tables : List Table)
deriving DecidableEq

-- Outcome of persisting the uploaded buffer to the transient file:
-- open(temp,"wb") itself raises (no file created), f.write raises (file
-- already created by open), or both succeed.
inductive WriteAttempt where
  | openRaises (msg : String)
  | writeRaises (msg : String)
  | ok
deriving DecidableEq

-- Observable events, in program order: filesystem operations on the
-- transient file and UI messages.
inductive Ev where
  | openWrite (path : String)
  | remove (path : String)
  | uiInfo (s : String)
  | uiError (s : String)
  | uiWarning (s : String)
  | uiSuccess (s : String)
deriving DecidableEq

-- src/app.py line 14: the fixed transient path.
def temp_pdf_path : String := "temp_uploaded_file.pdf"

-- Decimal rendering of a natural number, as Python str() does inside the
-- f-string building the sheet name. Fuel-indexed so it is structurally
-- recursive and evaluates inside the kernel.
def digitChar10 : Nat → Char
  | 0 => '0'
  | 1 => '1'
  | 2 => '2'
  | 3 => '3'
  | 4 => '4'
  | 5 => '5'
  | 6 => '6'
  | 7 => '7'
  | 8 => '8'
  | 9 => '9'
  | _ => 'X'

def natCharsAux : Nat → Nat → List Char
  | 0, _ => []
  | fuel + 1, n =>
    if n < 10 then [digitChar10 n]
    else natCharsAux fuel (n / 10) ++ [digitChar10 (n % 10)]

def natChars (n : Nat) : List Char := natCharsAux (n + 1) n

def natStr (n : Nat) : String := String.mk (natChars n)

-- src/app.py line 52: sheet_name = fstring Table_P{table.page}_{i + 1}.
def sheetName (page idx : Nat) : String :=
  String.mk ("Table_P".data ++ natChars page ++ '_' :: natChars idx)

-- src/app.py lines 20, 31, 32, 41, 44: the UI message texts.
def infoMsg (flavor pages : String) : String :=
  "Using Camelot with flavor: **" ++ flavor.toUpper ++ "** on pages: **" ++ pages ++ "**"

def errMsg (e : String) : String :=
  "Error reading PDF with Camelot: " ++ e

def ghostscriptMsg : String :=
  "Please ensure Ghostscript is correctly configured on the hosting server."

def noTablesMsg : String :=
  "No tables were extracted. Try switching the extraction **Flavor** (Lattice/Stream)."

def successMsg (n : Nat) : String :=
  "Successfully extracted **" ++ natStr n ++ "** tables from the PDF."

-- src/app.py lines 48-53: the loop `for i, table in enumerate(tables)`
-- writing table.df to a sheet named Table_P{page}_{i+1} with
-- index=False, header=False: the cells are exactly the rows, no index
-- column and no header row added. assembleFrom i is the loop with the
-- enumerate counter currently at i.
def assembleFrom : Nat → List Table → List Sheet
  | _, [] => []
  | i, t :: ts => ⟨sheetName t.page (i + 1), t.rows⟩ :: assembleFrom (i + 1) ts

def assemble (tables : List Table) : List Sheet := assembleFrom 0 tables

-- Result of the try/except/finally block (src/app.py lines 13-38):
-- the tables when the try succeeded (none when the except path ran and
-- the function will return None), whether the transient file exists
-- once the finally block has completed, and the event trace so far.
structure PhaseResult where
  res : Option (List Table)
  tempExists : Bool
  trace : List Ev
deriving DecidableEq

-- Result of the whole function: the Python return value, whether the
-- transient file exists when the function returns, and the full trace.
structure RunResult where
  ret : PyValue
  tempExists : Bool
  trace : List Ev
deriving DecidableEq

-- src/app.py lines 13-38. The try body opens the transient file (which
-- creates it), writes the buffer, shows the info message, and calls
-- camelot; any exception from the write or the call is caught by the
-- except handler, which shows the error and warning messages and makes
-- the function return None; the finally block removes the transient
-- file, guarded by os.path.exists, on every exit path.
def extractPhase (w : WriteAttempt) (flavor pages : String) (c : ExtCall) : PhaseResult :=
  let tryStep : Except String (List Table) × Bool × List Ev :=
    match w with
    | .openRaises m => (.error m, false, [])
    | .writeRaises m => (.error m, true, [.openWrite temp_pdf_path])
    | .ok =>
      match c with
      | .raises m =>
        (.error m, true, [.openWrite temp_pdf_path, .uiInfo (infoMsg flavor pages)])
      | .returns ts =>
        (.ok ts, true, [.openWrite temp_pdf_path, .uiInfo (infoMsg flavor pages)])
  match tryStep with
  | (.error m, ex, tr) =>
    let tr2 := tr ++ [.uiError (errMsg m), .uiWarning ghostscriptMsg]
    if ex then ⟨none, false, tr2 ++ [.remove temp_pdf_path]⟩
    else ⟨none, ex, tr2⟩
  | (.ok ts, ex, tr) =>
    if ex then ⟨some ts, false, tr ++ [.remove temp_pdf_path]⟩
    else ⟨some ts, ex, tr⟩

-- src/app.py lines 8-56: the whole function. After the guarded block,
-- a zero-length table list shows a warning and returns None; otherwise
-- the success message is shown and the sheets are assembled into the
-- returned buffer.
def extract_tables_to_excel (w : WriteAttempt) (flavor pages : String) (c : ExtCall) :
    RunResult :=
  match extractPhase w flavor pages c with
  | ⟨none, ex, tr⟩ => ⟨.none, ex, tr⟩
  | ⟨some ts, ex, tr⟩ =>
    if ts.length = 0 then ⟨.none, ex, tr ++ [.uiWarning noTablesMsg]⟩
    else ⟨.buffer (assemble ts), ex, tr ++ [.uiSuccess (successMsg ts.length)]⟩

-- Does the pattern list lead (start) the second list?
def leadsWith : List Char → List Char → Bool
  | [], _ => true
  | _ :: _, [] => false
  | p :: ps, c :: cs => p == c && leadsWith ps cs

-- Python str.replace semantics: replace every non-overlapping occurrence
-- of the (nonempty) pattern, scanning left to right. Fuel-indexed on the
-- input length so it is structurally recursive.
def replaceAllAux (p : Char) (ps repl : List Char) : Nat → List Char → List Char
  | _, [] => []
  | 0, l => l
  | fuel + 1, c :: rest =>
    if leadsWith (p :: ps) (c :: rest) then
      repl ++ replaceAllAux p ps repl fuel (rest.drop ps.length)
    else
      c :: replaceAllAux p ps repl fuel rest

def replaceAll (p : Char) (ps repl l : List Char) : List Char :=
  replaceAllAux p ps repl l.length l

-- src/app.py line 123:
-- uploaded_file.name.replace(".pdf", f"_{selected_flavor}_extracted.xlsx")
def download_file_name (uploadedName flavor : String) : String :=
  String.mk
    (replaceAll '.' ['p', 'd', 'f'] ("_" ++ flavor ++ "_extracted.xlsx").data
      uploadedName.data)

-- The claim C5 reading of that line (spec words): only the trailing
-- ".pdf" suffix is replaced, the rest of the name is untouched. Kept for
-- comparison with download_file_name.
def suffixOnlyDownloadName (uploadedName flavor : String) : String :=
  String.mk (uploadedName.data.take (uploadedName.data.length - 4))
    ++ "_" ++ flavor ++ "_extracted.xlsx"

-- The transient-file paths an invocation writes to, in order.
def pathsUsed (tr : List Ev) : List String :=
  tr.filterMap fun e =>
    match e with
    | .openWrite p => some p
    | _ => none

-- ## Lemmas about decimal rendering

theorem natCharsAux_congr : ∀ f1 f2 n, n < f1 → n < f2 →
    natCharsAux f1 n = natCharsAux f2 n := by
  intro f1
  induction f1 with
  | zero => intro f2 n h1 _; omega
  | succ f1 ih =>
    intro f2 n h1 h2
    match f2, h2 with
    | f2 + 1, h2 =>
      simp only [natCharsAux]
      by_cases h10 : n < 10
      · simp [h10]
      · have hd : n / 10 < n := Nat.div_lt_self (by omega) (by omega)
        simp only [h10, if_false]
        rw [ih f2 (n / 10) (by omega) (by omega)]

theorem natChars_eq (n : Nat) : natChars n =
    if n < 10 then [digitChar10 n]
    else natChars (n / 10) ++ [digitChar10 (n % 10)] := by
  by_cases h10 : n < 10
  · rw [if_pos h10]
    simp [natChars, natCharsAux, h10]
  · rw [if_neg h10]
    have hd : n / 10 < n := Nat.div_lt_self (by omega) (by omega)
    have h1 : natChars n = natCharsAux n (n / 10) ++ [digitChar10 (n % 10)] := by
      simp [natChars, natCharsAux, h10]
    rw [h1, natCharsAux_congr n (n / 10 + 1) (n / 10) (by omega) (by omega)]
    rfl

def digitVal (c : Char) : Nat := c.toNat - 48

def parse10 (l : List Char) : Nat := l.foldl (fun a c => a * 10 + digitVal c) 0

theorem parse10_append (l : List Char) (c : Char) :
    parse10 (l ++ [c]) = parse10 l * 10 + digitVal c := by
  simp [parse10, List.foldl_append]

theorem digitVal_digitChar10 (d : Nat) (h : d < 10) : digitVal (digitChar10 d) = d := by
  match d, h with
  | 0, _ => decide
  | 1, _ => decide
  | 2, _ => decide
  | 3, _ => decide
  | 4, _ => decide
  | 5, _ => decide
  | 6, _ => decide
  | 7, _ => decide
  | 8, _ => decide
  | 9, _ => decide

theorem digitChar10_ne_underscore (d : Nat) (h : d < 10) : digitChar10 d ≠ '_' := by
  match d, h with
  | 0, _ => decide
  | 1, _ => decide
  | 2, _ => decide
  | 3, _ => decide
  | 4, _ => decide
  | 5, _ => decide
  | 6, _ => decide
  | 7, _ => decide
  | 8, _ => decide
  | 9, _ => decide

theorem parse10_natChars (n : Nat) : parse10 (natChars n) = n := by
  induction n using Nat.strong_induction_on with
  | _ n ih =>
    rw [natChars_eq]
    by_cases h10 : n < 10
    · simp only [h10, if_true]
      show parse10 [digitChar10 n] = n
      simp [parse10, digitVal_digitChar10 n h10]
    · have hd : n / 10 < n := Nat.div_lt_self (by omega) (by omega)
      simp only [h10, if_false, parse10_append]
      rw [ih (n / 10) hd, digitVal_digitChar10 (n % 10) (Nat.mod_lt n (by omega))]
      omega

theorem natChars_inj {m n : Nat} (h : natChars m = natChars n) : m = n := by
  have := congrArg parse10 h
  simpa [parse10_natChars] using this

theorem natChars_ne_underscore (n : Nat) : ∀ c ∈ natChars n, c ≠ '_' := by
  induction n using Nat.strong_induction_on with
  | _ n ih =>
    rw [natChars_eq]
    by_cases h10 : n < 10
    · simp only [h10, if_true, List.mem_singleton]
      intro c hc
      subst hc
      exact digitChar10_ne_underscore n h10
    · have hd : n / 10 < n := Nat.div_lt_self (by omega) (by omega)
      simp only [h10, if_false, List.mem_append, List.mem_singleton]
      intro c hc
      rcases hc with hc | hc
      · exact ih (n / 10) hd c hc
      · subst hc
        exact digitChar10_ne_underscore (n % 10) (Nat.mod_lt n (by omega))

-- ## Sheet-name structure lemmas

-- In a list split as front ++ underscore :: tail with an underscore-free
-- tail, the tail is determined: it is the maximal underscore-free suffix.
theorem underscore_split_right :
    ∀ (as bs xs ys : List Char), (∀ c ∈ xs, c ≠ '_') → (∀ c ∈ ys, c ≠ '_') →
      as ++ '_' :: xs = bs ++ '_' :: ys → xs = ys := by
  intro as
  induction as with
  | nil =>
    intro bs xs ys hx hy h
    match bs with
    | [] => simpa using h
    | b :: bs2 =>
      simp only [List.nil_append, List.cons_append, List.cons.injEq] at h
      exfalso
      have hmem : '_' ∈ xs := by
        rw [h.2]
        exact List.mem_append_right _ (List.mem_cons_self _ _)
      exact hx '_' hmem rfl
  | cons a as2 ih =>
    intro bs xs ys hx hy h
    match bs with
    | [] =>
      simp only [List.nil_append, List.cons_append, List.cons.injEq] at h
      exfalso
      have hmem : '_' ∈ ys := by
        rw [← h.2]
        exact List.mem_append_right _ (List.mem_cons_self _ _)
      exact hy '_' hmem rfl
    | b :: bs2 =>
      simp only [List.cons_append, List.cons.injEq] at h
      exact ih bs2 xs ys hx hy h.2

-- The index component determines itself: two sheet names agree only if
-- their index parts agree, whatever the page numbers are.
theorem sheetName_inj_idx {p q i j : Nat} (h : sheetName p i = sheetName q j) : i = j := by
  have hl : "Table_P".data ++ natChars p ++ '_' :: natChars i
      = "Table_P".data ++ natChars q ++ '_' :: natChars j := congrArg String.data h
  have hl2 : ("Table_P".data ++ natChars p) ++ '_' :: natChars i
      = ("Table_P".data ++ natChars q) ++ '_' :: natChars j := by
    simpa [List.append_assoc] using hl
  exact natChars_inj (underscore_split_right _ _ _ _
    (natChars_ne_underscore i) (natChars_ne_underscore j) hl2)

-- ## Assembler lemmas

theorem assembleFrom_length : ∀ (i : Nat) (ts : List Table),
    (assembleFrom i ts).length = ts.length := by
  intro i ts
  induction ts generalizing i with
  | nil => rfl
  | cons t ts ih => simp [assembleFrom, ih]

theorem assembleFrom_getElem? : ∀ (ts : List Table) (i k : Nat),
    (assembleFrom i ts)[k]? =
      (ts[k]?).map fun t => (⟨sheetName t.page (i + k + 1), t.rows⟩ : Sheet) := by
  intro ts
  induction ts with
  | nil => intro i k; simp [assembleFrom]
  | cons t ts ih =>
    intro i k
    match k with
    | 0 => simp [assembleFrom]
    | k + 1 =>
      simp only [assembleFrom, List.getElem?_cons_succ, ih (i + 1) k]
      have h : i + 1 + k + 1 = i + (k + 1) + 1 := by omega
      rw [h]

theorem mem_name_assembleFrom : ∀ (ts : List Table) (i : Nat) (s : String),
    s ∈ (assembleFrom i ts).map Sheet.sname → ∃ p m, i + 1 ≤ m ∧ s = sheetName p m := by
  intro ts
  induction ts with
  | nil => intro i s h; simp [assembleFrom] at h
  | cons t ts ih =>
    intro i s h
    simp only [assembleFrom, List.map_cons, List.mem_cons] at h
    rcases h with h | h
    · exact ⟨t.page, i + 1, Nat.le_refl _, h⟩
    · obtain ⟨p, m, hm, heq⟩ := ih (i + 1) s h
      exact ⟨p, m, by omega, heq⟩

theorem assembleFrom_names_nodup : ∀ (ts : List Table) (i : Nat),
    ((assembleFrom i ts).map Sheet.sname).Nodup := by
  intro ts
  induction ts with
  | nil => intro i; simp [assembleFrom]
  | cons t ts ih =>
    intro i
    simp only [assembleFrom, List.map_cons, List.nodup_cons]
    refine ⟨fun hmem => ?_, ih (i + 1)⟩
    obtain ⟨p, m, hm, heq⟩ := mem_name_assembleFrom ts (i + 1) _ hmem
    have := sheetName_inj_idx heq
    omega

-- ## Replacement lemmas

theorem leadsWith_self : ∀ l : List Char, leadsWith l l = true := by
  intro l
  induction l with
  | nil => rfl
  | cons c cs ih => simp [leadsWith, ih]

theorem replaceAllAux_congr (p : Char) (ps repl : List Char) :
    ∀ f1 f2 l, l.length ≤ f1 → l.length ≤ f2 →
      replaceAllAux p ps repl f1 l = replaceAllAux p ps repl f2 l := by
  intro f1
  induction f1 with
  | zero =>
    intro f2 l h1 _
    have : l = [] := List.eq_nil_of_length_eq_zero (by omega)
    subst this
    cases f2 <;> rfl
  | succ f1 ih =>
    intro f2 l h1 h2
    match l with
    | [] => cases f2 <;> rfl
    | c :: rest =>
      match f2, h2 with
      | f2 + 1, h2 =>
        have h1r : rest.length ≤ f1 := by simp at h1; omega
        have h2r : rest.length ≤ f2 := by simp at h2; omega
        have hdrop1 : (rest.drop ps.length).length ≤ f1 := by simp; omega
        have hdrop2 : (rest.drop ps.length).length ≤ f2 := by simp; omega
        simp only [replaceAllAux]
        rw [ih f2 (rest.drop ps.length) hdrop1 hdrop2, ih f2 rest h1r h2r]

theorem replaceAll_cons (p : Char) (ps repl : List Char) (c : Char) (rest : List Char) :
    replaceAll p ps repl (c :: rest) =
      if leadsWith (p :: ps) (c :: rest) then
        repl ++ replaceAll p ps repl (rest.drop ps.length)
      else c :: replaceAll p ps repl rest := by
  unfold replaceAll
  simp only [List.length_cons, replaceAllAux]
  rw [replaceAllAux_congr p ps repl rest.length (rest.drop ps.length).length
    (rest.drop ps.length) (by simp) (le_refl _)]

-- When the pattern occurs in xs ++ pattern only as the final suffix,
-- replacing every occurrence is exactly replacing that suffix.
theorem replaceAll_suffix (p : Char) (ps repl : List Char) :
    ∀ xs : List Char,
      (∀ i, i < xs.length → leadsWith (p :: ps) ((xs ++ p :: ps).drop i) = false) →
      replaceAll p ps repl (xs ++ p :: ps) = xs ++ repl := by
  intro xs
  induction xs with
  | nil =>
    intro _
    simp only [List.nil_append]
    rw [replaceAll_cons, if_pos (leadsWith_self (p :: ps)), List.drop_length]
    simp [replaceAll, replaceAllAux]
  | cons c xs ih =>
    intro h
    have h0 : leadsWith (p :: ps) (c :: (xs ++ p :: ps)) = false := by
      have h00 := h 0 (by simp)
      simpa using h00
    simp only [List.cons_append]
    rw [replaceAll_cons, if_neg (by simp [h0])]
    rw [ih (fun i hi => by
      have h01 := h (i + 1) (by simp; omega)
      simpa using h01)]

-- ## Claim theorems

/-- Claim C1: when the extraction library returns N >= 1 tables, the
function returns the assembled buffer, which has exactly N sheets, one
per table in the returned order, and the sheet at 1-based position k + 1
is named Table_P(page)_(k + 1) for that table's page number. -/
theorem pipeline_sheet_count_and_names (flavor pages : String) (ts : List Table)
    (h : ts ≠ []) :
    (extract_tables_to_excel .ok flavor pages (.returns ts)).ret = .buffer (assemble ts) ∧
    (assemble ts).length = ts.length ∧
    ∀ k : Nat, ((assemble ts)[k]?).map Sheet.sname =
      (ts[k]?).map fun t => sheetName t.page (k + 1) := by
  have hlen : ¬ ts.length = 0 := by simpa [List.length_eq_zero] using h
  refine ⟨?_, assembleFrom_length 0 ts, ?_⟩
  · simp [extract_tables_to_excel, extractPhase, hlen]
  · intro k
    rw [assemble, assembleFrom_getElem?]
    cases ts[k]? <;> simp

/-- Claim C1 witness: a concrete two-table run, both tables on page 1. -/
theorem pipeline_sheet_count_and_names_witness :
    ([⟨1, [["a"]]⟩, ⟨1, [["b"]]⟩] : List Table) ≠ [] ∧
    (extract_tables_to_excel .ok "stream" "all"
        (.returns [⟨1, [["a"]]⟩, ⟨1, [["b"]]⟩])).ret
      = .buffer (assemble [⟨1, [["a"]]⟩, ⟨1, [["b"]]⟩]) :=
  ⟨by decide,
   (pipeline_sheet_count_and_names "stream" "all" [⟨1, [["a"]]⟩, ⟨1, [["b"]]⟩]
     (by decide)).1⟩

/-- Claim C2 counterexample: the claim says the value returned in the
zero-table case differs from the value returned in the error case; in
the code both paths return None, so the two values are equal. -/
theorem emptyResult_and_failure_return_equal_values :
    (extract_tables_to_excel .ok "stream" "all" (.returns [])).ret
      = (extract_tables_to_excel .ok "stream" "all" (.raises "boom")).ret := by
  decide

/-- Claim C2 (amended): in the zero-table case the function returns None
— the same value as the error case, never a buffer, so no spreadsheet is
produced — and the two outcomes are distinguished only by the emitted UI
messages: the zero-table run shows the no-tables warning (and no error
message), while the error run shows the error message (and not that
warning). -/
theorem emptyResult_distinct_only_in_messages (flavor pages m : String) :
    (extract_tables_to_excel .ok flavor pages (.returns [])).ret = .none ∧
    (∀ sheets, (extract_tables_to_excel .ok flavor pages (.returns [])).ret
      ≠ .buffer sheets) ∧
    Ev.uiWarning noTablesMsg ∈ (extract_tables_to_excel .ok flavor pages (.returns [])).trace ∧
    Ev.uiError (errMsg m) ∉ (extract_tables_to_excel .ok flavor pages (.returns [])).trace ∧
    Ev.uiWarning noTablesMsg ∉ (extract_tables_to_excel .ok flavor pages (.raises m)).trace ∧
    Ev.uiError (errMsg m) ∈ (extract_tables_to_excel .ok flavor pages (.raises m)).trace := by
  refine ⟨by simp [extract_tables_to_excel, extractPhase], ?_, ?_, ?_, ?_, ?_⟩
  · intro sheets
    simp [extract_tables_to_excel, extractPhase]
  · simp [extract_tables_to_excel, extractPhase]
  · simp [extract_tables_to_excel, extractPhase]
  · simp [extract_tables_to_excel, extractPhase, noTablesMsg, ghostscriptMsg]
  · simp [extract_tables_to_excel, extractPhase]

/-- Claim C3 counterexample: two distinct invocations — different
parameters, different inputs, different outcomes — both write to the
one fixed path temp_uploaded_file.pdf, so transient paths are shared
across invocations, not unique to each. -/
theorem temp_path_shared_across_invocations :
    pathsUsed (extract_tables_to_excel .ok "stream" "all"
        (.returns [⟨1, [["a"]]⟩])).trace = ["temp_uploaded_file.pdf"] ∧
    pathsUsed (extract_tables_to_excel .ok "lattice" "1"
        (.raises "x")).trace = ["temp_uploaded_file.pdf"] := by
  decide

/-- Claim C3 (amended): every invocation writes the source bytes to the
single fixed path temp_uploaded_file.pdf (src/app.py line 14); the
transient path is the same for all invocations rather than unique per
invocation. -/
theorem temp_path_always_fixed (w : WriteAttempt) (flavor pages : String) (c : ExtCall) :
    ((pathsUsed (extract_tables_to_excel w flavor pages c).trace).all
      fun q => q == temp_pdf_path) = true := by
  cases w with
  | openRaises m => simp [extract_tables_to_excel, extractPhase, pathsUsed]
  | writeRaises m => simp [extract_tables_to_excel, extractPhase, pathsUsed]
  | ok =>
    cases c with
    | raises m => simp [extract_tables_to_excel, extractPhase, pathsUsed]
    | returns ts =>
      by_cases hnil : ts = [] <;>
        simp [extract_tables_to_excel, extractPhase, pathsUsed, hnil]

/-- Claim C4: on every exit path of the guarded block — tables returned,
empty result, write failure, or an error raised by the extraction call —
the transient file no longer exists once the invocation completes. -/
theorem temp_file_removed_on_every_path (w : WriteAttempt) (flavor pages : String)
    (c : ExtCall) :
    (extract_tables_to_excel w flavor pages c).tempExists = false := by
  cases w with
  | openRaises m => simp [extract_tables_to_excel, extractPhase]
  | writeRaises m => simp [extract_tables_to_excel, extractPhase]
  | ok =>
    cases c with
    | raises m => simp [extract_tables_to_excel, extractPhase]
    | returns ts =>
      by_cases hnil : ts = [] <;>
        simp [extract_tables_to_excel, extractPhase, hnil]

/-- Claim C5 counterexample: for the uploaded name a.pdf.pdf the code
(Python str.replace, which replaces every occurrence) produces a name in
which both occurrences of .pdf are replaced, not only the trailing
suffix, so the download name differs from the suffix-only reading of the
claim. -/
theorem download_name_not_suffix_only :
    download_file_name "a.pdf.pdf" "stream"
      = "a_stream_extracted.xlsx_stream_extracted.xlsx" ∧
    suffixOnlyDownloadName "a.pdf.pdf" "stream" = "a.pdf_stream_extracted.xlsx" ∧
    download_file_name "a.pdf.pdf" "stream"
      ≠ suffixOnlyDownloadName "a.pdf.pdf" "stream" := by
  decide

/-- Claim C5 (amended): the download name replaces every occurrence of
.pdf in the uploaded filename with _(flavor)_extracted.xlsx (Python
str.replace semantics); when no occurrence of .pdf starts before the
trailing suffix, the result is exactly the uploaded name with that
trailing suffix replaced and no other part altered. -/
theorem download_name_suffix_replacement (flavor : String) (xs : List Char)
    (h : ∀ i, i < xs.length →
      leadsWith ['.', 'p', 'd', 'f'] ((xs ++ ['.', 'p', 'd', 'f']).drop i) = false) :
    download_file_name (String.mk (xs ++ ['.', 'p', 'd', 'f'])) flavor
      = String.mk (xs ++ ("_" ++ flavor ++ "_extracted.xlsx").data) := by
  unfold download_file_name
  congr 1
  exact replaceAll_suffix '.' ['p', 'd', 'f'] _ xs h

/-- Claim C5 witness: the well-behaved name report.pdf, in which .pdf
occurs only as the trailing suffix. -/
theorem download_name_suffix_replacement_witness :
    (∀ i, i < ("report".data).length →
      leadsWith ['.', 'p', 'd', 'f']
        (("report".data ++ ['.', 'p', 'd', 'f']).drop i) = false) ∧
    download_file_name (String.mk ("report".data ++ ['.', 'p', 'd', 'f'])) "stream"
      = String.mk ("report".data ++ ("_" ++ "stream" ++ "_extracted.xlsx").data) :=
  ⟨by decide, download_name_suffix_replacement "stream" "report".data (by decide)⟩

/-- Claim C6: sheet naming is injective within one output document: for
every input table sequence the generated sheet names are pairwise
distinct, even when page numbers repeat, because the embedded 1-based
sequence index is strictly increasing. -/
theorem sheet_names_injective (ts : List Table) :
    ((assemble ts).map Sheet.sname).Nodup :=
  assembleFrom_names_nodup ts 0

/-- Claim C7: the sheet written for each table holds exactly that table's
rows of string cells in source order — no header row synthesized, no
index column prepended, no coercion of the cell strings. -/
theorem sheet_cells_verbatim (ts : List Table) (k : Nat) :
    ((assemble ts)[k]?).map Sheet.cells = (ts[k]?).map Table.rows := by
  rw [assemble, assembleFrom_getElem?]
  cases ts[k]? <;> simp

/-- Claim C8: the pipeline is deterministic: two invocations with the
same write outcome, flavor, page selector, and the same table sequence
from the extraction library produce identical results (in particular
identical sheet names and cell contents). -/
theorem pipeline_deterministic (w : WriteAttempt) (flavor pages : String)
    (ts1 ts2 : List Table) (h : ts1 = ts2) :
    extract_tables_to_excel w flavor pages (.returns ts1)
      = extract_tables_to_excel w flavor pages (.returns ts2) := by
  rw [h]

/-- Claim C8 witness: a concrete repeated invocation. -/
theorem pipeline_deterministic_witness :
    ([⟨1, [["a"]]⟩] : List Table) = [⟨1, [["a"]]⟩] ∧
    extract_tables_to_excel .ok "stream" "all" (.returns [⟨1, [["a"]]⟩])
      = extract_tables_to_excel .ok "stream" "all" (.returns [⟨1, [["a"]]⟩]) :=
  ⟨rfl, pipeline_deterministic .ok "stream" "all" [⟨1, [["a"]]⟩] [⟨1, [["a"]]⟩] rfl⟩

/-- Claim C9: an error raised while persisting the upload — whether open
itself fails or the write fails — is caught by the same except handler
as extraction errors: the function returns the failure value None and
shows the handler messages; no exception escapes the guarded block. -/
theorem write_errors_caught_and_reported (m flavor pages : String) (c : ExtCall) :
    (extract_tables_to_excel (.openRaises m) flavor pages c).ret = .none ∧
    (extract_tables_to_excel (.writeRaises m) flavor pages c).ret = .none ∧
    Ev.uiError (errMsg m) ∈ (extract_tables_to_excel (.openRaises m) flavor pages c).trace ∧
    Ev.uiError (errMsg m) ∈ (extract_tables_to_excel (.writeRaises m) flavor pages c).trace ∧
    Ev.uiWarning ghostscriptMsg
      ∈ (extract_tables_to_excel (.openRaises m) flavor pages c).trace ∧
    Ev.uiWarning ghostscriptMsg
      ∈ (extract_tables_to_excel (.writeRaises m) flavor pages c).trace := by
  cases c <;> simp [extract_tables_to_excel, extractPhase]

/-- Claim C10: the transient file is already gone when the guarded block
completes, so it no longer exists when the result is classified and the
spreadsheet is assembled (which perform no filesystem operations, so the
flag is unchanged by them); and when open failed so the file was never
created, the finally block performs no removal at all — the deletion is
guarded by the existence check and cannot fail. -/
theorem temp_file_gone_before_classification (w : WriteAttempt) (flavor pages : String)
    (c : ExtCall) :
    (extractPhase w flavor pages c).tempExists = false ∧
    (extract_tables_to_excel w flavor pages c).tempExists
      = (extractPhase w flavor pages c).tempExists ∧
    (∀ m, w = .openRaises m →
      Ev.remove temp_pdf_path ∉ (extractPhase w flavor pages c).trace) := by
  refine ⟨?_, ?_, ?_⟩
  · cases w with
    | openRaises m => simp [extractPhase]
    | writeRaises m => simp [extractPhase]
    | ok => cases c <;> simp [extractPhase]
  · cases w with
    | openRaises m => simp [extract_tables_to_excel, extractPhase]
    | writeRaises m => simp [extract_tables_to_excel, extractPhase]
    | ok =>
      cases c with
      | raises m => simp [extract_tables_to_excel, extractPhase]
      | returns ts =>
        by_cases hnil : ts = [] <;>
          simp [extract_tables_to_excel, extractPhase, hnil]
  · intro m hw
    subst hw
    cases c <;> simp [extractPhase]

/-- Claim C10 witness: a run whose open fails, never creating the file:
the phase ends with no file and its trace holds no removal. -/
theorem temp_file_gone_before_classification_witness :
    (extractPhase (.openRaises "e") "stream" "all" (.returns [])).tempExists = false ∧
    Ev.remove temp_pdf_path
      ∉ (extractPhase (.openRaises "e") "stream" "all" (.returns [])).trace :=
  ⟨(temp_file_gone_before_classification (.openRaises "e") "stream" "all" (.returns [])).1,
   (temp_file_gone_before_classification (.openRaises "e") "stream" "all"
     (.returns [])).2.2 "e" rfl⟩
